import Mathlib

/-!
Shallow embedding of the Reustmann debugger frontend
(`src/bin/debugger.rs` and `src/bin/main.rs`).

The execution engine (`reustmann::Interpreter`) is an external crate: the
debugger only calls `step`, `reset`, `copy_program`, `debug_infos` and
`Interpreter::new` on it, and compares the op-code of each returned
`Statement` with the crate constant `op_codes::HALT`.  We therefore model
the engine as an abstract state type `σ` together with a record of the
operations the debugger invokes (`EngineOps`); the input/output streams a
step may consume or produce are part of the abstract state `σ`.  Each
engine call is one application of the corresponding `EngineOps` field, so
"number of engine step calls performed" is exactly the number of
applications of `ops.step` threaded through the state.
-/

namespace Reustmann

/-- Outcome record of one executed instruction, mirroring
`reustmann::Statement(op_code, is_success)` (external crate, shape fixed by
its uses in `src/bin/debugger.rs` and `src/bin/main.rs`). -/
structure Statement where
  op_code : Nat
  is_success : Bool
deriving DecidableEq

/-- Engine snapshot, mirroring `reustmann::DebugInfos { memory, pc, sp, nz }`
as destructured in `display_infos` (`src/bin/main.rs`, line 72). -/
structure DebugInfos where
  memory : List Nat
  pc : Nat
  sp : Nat
  nz : Bool
deriving DecidableEq

/-- A program image: an ordered sequence of bytes
(`reustmann::Program`; the debugger only uses `program.memory()`). -/
structure Program where
  memory : List Nat
deriving DecidableEq

/-- Modelled from the spec: the distinguished halt op-code
(`reustmann::instruction::op_codes::HALT`, external crate, numeric value not
in this repository).  The debugger only compares op-codes against it for
equality, so any fixed value serves. -/
def op_codes.HALT : Nat := 255

/-- Errors of the debugger layer (`DebuggerError`, from the
`debugger_error` module; the variants used in `src/bin/debugger.rs` are
`NoInterpreter` and `InterpreterCreation(cause)`). -/
inductive DebuggerError where
  | NoInterpreter : DebuggerError
  | InterpreterCreation : DebuggerError
deriving DecidableEq

/-- The engine operations the debugger invokes on the external
`reustmann::Interpreter`, over an abstract engine-state type `σ`
(which also carries any input/output stream state). -/
structure EngineOps (σ : Type) where
  new : Nat → Nat → Except String σ
  copy_program : σ → Program → σ
  reset : σ → σ × Statement
  step : σ → σ × Statement
  debug_infos : σ → DebugInfos

/-- The session state owned by `Debugger` (`src/bin/debugger.rs`, lines
49-55): an optional interpreter, the loaded-program name and the last
statement.  The `input`/`output` stream handles of the Rust struct are
not part of the session's observable state (they are borrowed I/O sinks)
and live inside the abstract engine state instead. -/
structure Debugger (σ : Type) where
  interpreter : Option σ
  program_name : Option String
  statement : Option Statement
deriving DecidableEq

/-- `DEFAULT_ARCH_WIDTH` (`src/bin/debugger.rs`, line 14). -/
def DEFAULT_ARCH_WIDTH : Nat := 8

/-- `Debugger::new` (`src/bin/debugger.rs`, lines 66-74). -/
def Debugger.new (σ : Type) : Debugger σ :=
  { interpreter := none, program_name := none, statement := none }

/-- `Debugger::set_interpreter` (`src/bin/debugger.rs`, lines 174-181):
creates an engine with the given geometry, replacing any existing one.
Mutation of `&mut self` is modelled by returning the updated `Debugger`
next to the `Result`. -/
def Debugger.set_interpreter {σ : Type} (ops : EngineOps σ) (d : Debugger σ)
    (arch_length arch_width : Nat) :
    Except DebuggerError Unit × Debugger σ :=
  match ops.new arch_length arch_width with
  | .error _ => (.error .InterpreterCreation, d)
  | .ok st => (.ok (), { d with interpreter := some st })

/-- `Debugger::unset_interpreter` (`src/bin/debugger.rs`, lines 183-191):
fails with `NoInterpreter` when absent, otherwise sets the interpreter
slot to `None`.  The `program_name` and `statement` fields are not
touched. -/
def Debugger.unset_interpreter {σ : Type} (d : Debugger σ) :
    Except DebuggerError Unit × Debugger σ :=
  match d.interpreter with
  | none => (.error .NoInterpreter, d)
  | some _ => (.ok (), { d with interpreter := none })

/-- `Debugger::interpreter` (`src/bin/debugger.rs`, lines 194-199):
read-only accessor. -/
def Debugger.interpreter_val {σ : Type} (d : Debugger σ) :
    Except DebuggerError σ :=
  match d.interpreter with
  | some st => .ok st
  | none => .error .NoInterpreter

/-- `Debugger::copy_program_and_reset` (`src/bin/debugger.rs`, lines
201-208): copies the program into the interpreter and resets it (the
statement returned by `reset` is discarded here). -/
def Debugger.copy_program_and_reset {σ : Type} (ops : EngineOps σ)
    (d : Debugger σ) (program : Program) :
    Except DebuggerError Unit × Debugger σ :=
  match d.interpreter with
  | some st =>
      (.ok (), { d with interpreter := some ((ops.reset (ops.copy_program st program)).1) })
  | none => (.error .NoInterpreter, d)

/-- `Debugger::reset` (`src/bin/debugger.rs`, lines 210-215). -/
def Debugger.reset {σ : Type} (ops : EngineOps σ) (d : Debugger σ) :
    Except DebuggerError Statement × Debugger σ :=
  match d.interpreter with
  | some st => (.ok (ops.reset st).2, { d with interpreter := some (ops.reset st).1 })
  | none => (.error .NoInterpreter, d)

/-- The `for i in 0..steps` loop of `Debugger::steps`
(`src/bin/debugger.rs`, lines 221-232), with the loop state made
explicit: current engine state `st`, the list of loop indices still to
be visited (`0..steps` iterates over `List.range steps`), the
`executed` counter and the `statement` variable.  Each iteration calls
the engine once, stores its statement, breaks on a `HALT` op-code
*before* `executed = i + 1` runs, and otherwise sets `executed = i + 1`
and continues.  Returns `(executed, statement, final engine state)`. -/
def stepsLoop {σ : Type} (stepF : σ → σ × Statement) :
    σ → List Nat → Nat → Option Statement → Nat × Option Statement × σ
  | st, [], executed, statement => (executed, statement, st)
  | st, i :: rest, executed, statement =>
    let p := stepF st
    if p.2.op_code = op_codes.HALT then
      (executed, some p.2, p.1)
    else
      stepsLoop stepF p.1 rest (i + 1) (some p.2)

/-- `Debugger::steps` (`src/bin/debugger.rs`, lines 217-236): runs the
loop over `0..steps` with `executed = 0` and `statement = None`, then
returns `(executed, interpreter.debug_infos(), statement)`. -/
def Debugger.steps {σ : Type} (ops : EngineOps σ) (d : Debugger σ)
    (steps : Nat) :
    Except DebuggerError (Nat × DebugInfos × Option Statement) × Debugger σ :=
  match d.interpreter with
  | some st =>
      let r := stepsLoop ops.step st (List.range steps) 0 none
      (.ok (r.1, ops.debug_infos r.2.2, r.2.1), { d with interpreter := some r.2.2 })
  | none => (.error .NoInterpreter, d)

/-- `Debugger::debug_infos` (`src/bin/debugger.rs`, lines 239-244). -/
def Debugger.debug_infos_val {σ : Type} (ops : EngineOps σ) (d : Debugger σ) :
    Except DebuggerError DebugInfos :=
  match d.interpreter with
  | some st => .ok (ops.debug_infos st)
  | none => .error .NoInterpreter

/-- The `Command::Copy` arm of `Debugger::execute` (`src/bin/debugger.rs`,
lines 110-143).  The file read (`create_program_from_file`) is external
I/O, so its outcome is passed in as `fileResult`.  The arm first sets
`self.program_name = Some(filename)`, then on a successful read tries
`copy_program_and_reset`; if that fails (no interpreter) it auto-creates
an interpreter sized to the program with `DEFAULT_ARCH_WIDTH` and retries
with `.unwrap()` — a panic of that unwrap is modelled as `none`. -/
def Debugger.executeCopy {σ : Type} (ops : EngineOps σ) (d : Debugger σ)
    (filename : String) (fileResult : Except String Program) :
    Option (Debugger σ) :=
  let d1 : Debugger σ := { d with program_name := some filename }
  match fileResult with
  | .error _ => some d1
  | .ok program =>
    match Debugger.copy_program_and_reset ops d1 program with
    | (.ok _, d2) => some d2
    | (.error _, d2) =>
        let arch_length := program.memory.length
        let d3 := (Debugger.set_interpreter ops d2 arch_length DEFAULT_ARCH_WIDTH).2
        match Debugger.copy_program_and_reset ops d3 program with
        | (.ok _, d4) => some d4
        | (.error _, _) => none

/-! ### Engine traces

`iterStep f st k` is the engine state after `k` calls of `step` from
`st`; `traceStmt f st j` is the `Statement` returned by the `(j+1)`-th
call.  Since every engine call in the embedding is one application of
`f`, the final engine state being `iterStep f st m` says that exactly
`m` step calls were performed. -/

def iterStep {σ : Type} (f : σ → σ × Statement) : σ → Nat → σ
  | st, 0 => st
  | st, k + 1 => iterStep f (f st).1 k

def traceStmt {σ : Type} (f : σ → σ × Statement) (st : σ) (j : Nat) :
    Statement :=
  (f (iterStep f st j)).2

theorem iterStep_succ_left {σ : Type} (f : σ → σ × Statement) (st : σ)
    (k : Nat) : iterStep f st (k + 1) = iterStep f (f st).1 k := rfl

/-! ### The circular memory window renderer

`display_infos` (`src/bin/main.rs`, lines 71-98) builds its rows from two
Rust iterator chains over `memory`:

  instrs = memory.iter().enumerate().cycle().skip(pc).take(lines).enumerate()
  stack  = memory.iter().enumerate().rev().cycle().skip(memory.len() - sp - 1).take(lines)
  rows   = instrs.zip(stack)

`cycleTake cur orig n` embeds `take(n)` applied to a `Cycle` iterator
whose remaining current pass is `cur` and whose underlying iterator is
`orig`: when the current pass is exhausted the cycle restarts from
`orig`, and a cycle of an empty iterator yields nothing.  `cycleDrop`
embeds `skip` on the same iterator state. -/

def cycleTake {α : Type} (cur orig : List α) : Nat → List α
  | 0 => []
  | n + 1 =>
    match cur with
    | [] =>
      match orig with
      | [] => []
      | x :: xs => x :: cycleTake xs orig n
    | x :: xs => x :: cycleTake xs orig n

def cycleDrop {α : Type} (cur orig : List α) : Nat → List α
  | 0 => cur
  | k + 1 =>
    match cur with
    | [] =>
      match orig with
      | [] => []
      | _ :: xs => cycleDrop xs orig k
    | _ :: xs => cycleDrop xs orig k

/-- The data rows of `display_infos` (`src/bin/main.rs`, lines 76-97):
row `i` pairs `(idx, (pc_addr, op_code))` from the pc lane with
`(sp_addr, value)` from the sp lane.  The source fixes `lines = 10`
(line 77); the viewport height is exposed here as the `lines` parameter.
The stack lane's skip count `memory.len() - sp - 1` is `usize`
arithmetic; it is modelled with truncated `Nat` subtraction, which agrees
with Rust whenever `sp < memory.len()`, and in the remaining case
(`memory` empty, where the Rust expression underflows) every skip and
take over the empty cycle yields the empty list whatever the count, so
the rows are unaffected. -/
def display_infos_rows (dbg : DebugInfos) (lines : Nat) :
    List ((Nat × Nat × Nat) × (Nat × Nat)) :=
  let e := dbg.memory.enum
  let instrs := (cycleTake (cycleDrop e e dbg.pc) e lines).enum
  let stack :=
    cycleTake (cycleDrop e.reverse e.reverse (dbg.memory.length - dbg.sp - 1))
      e.reverse lines
  instrs.zip stack

example :
    display_infos_rows ⟨[10, 20, 30], 2, 0, false⟩ 4 =
      [((0, 2, 30), (0, 10)), ((1, 0, 10), (2, 30)),
       ((2, 1, 20), (1, 20)), ((3, 2, 30), (0, 10))] := by decide

theorem cycleDrop_nil {α : Type} : ∀ k, cycleDrop ([] : List α) [] k = []
  | 0 => rfl
  | _ + 1 => rfl

theorem cycleTake_nil {α : Type} : ∀ n, cycleTake ([] : List α) [] n = []
  | 0 => rfl
  | _ + 1 => rfl

/-- Closed form of `take n` on a cycle iterator whose state is the suffix
`orig.drop r`: element `i` is `orig[(r + i) % orig.length]`. -/
theorem cycleTake_drop_eq {α : Type} (orig : List α) (h : orig ≠ []) (d : α) :
    ∀ (n r : Nat), r ≤ orig.length →
      cycleTake (orig.drop r) orig n =
        (List.range n).map (fun i => orig.getD ((r + i) % orig.length) d) := by
  intro n
  induction n with
  | zero => intro r _; simp [cycleTake]
  | succ n ih =>
    intro r hr
    have hlen : 0 < orig.length := List.length_pos.2 h
    rcases Nat.lt_or_ge r orig.length with hrl | hrl
    · rw [List.drop_eq_getElem_cons hrl]
      show orig[r] :: cycleTake (orig.drop (r + 1)) orig n = _
      rw [ih (r + 1) hrl, List.range_succ_eq_map, List.map_cons, List.map_map]
      congr 1
      · rw [Nat.add_zero, Nat.mod_eq_of_lt hrl,
          List.getD_eq_getElem?_getD, List.getElem?_eq_getElem hrl]
        rfl
      · apply List.map_congr_left
        intro i _
        have hei : r + 1 + i = r + Nat.succ i := by omega
        simp [Function.comp, hei]
    · have hre : r = orig.length := Nat.le_antisymm hr hrl
      subst hre
      cases orig with
      | nil => exact absurd rfl h
      | cons x xs =>
        rw [List.drop_length]
        have hstep : cycleTake ([] : List α) (x :: xs) (n + 1) =
            x :: cycleTake xs (x :: xs) n := rfl
        have hd1 : (x :: xs).drop 1 = xs := rfl
        have h1 : (1 : Nat) ≤ (x :: xs).length := Nat.succ_le_succ (Nat.zero_le _)
        have hih := ih 1 h1
        rw [hd1] at hih
        rw [hstep, hih, List.range_succ_eq_map, List.map_cons, List.map_map]
        congr 1
        · rw [Nat.add_zero, Nat.mod_self]
          rfl
        · apply List.map_congr_left
          intro i _
          have hei : ((x :: xs).length + Nat.succ i) % (x :: xs).length =
              (1 + i) % (x :: xs).length := by
            have hsum : (x :: xs).length + Nat.succ i = (1 + i) + 1 * (x :: xs).length := by
              omega
            rw [hsum, Nat.add_mul_mod_self_right]
          simp [Function.comp, hei, Nat.add_comm]

/-- `skip s` on a cycle iterator whose state is the suffix `orig.drop r`
leaves it at some suffix `orig.drop q` with `q ≡ r + s (mod orig.length)`. -/
theorem cycleDrop_mod {α : Type} (orig : List α) (h : orig ≠ []) :
    ∀ (s r : Nat), r ≤ orig.length →
      ∃ q, q ≤ orig.length ∧ q % orig.length = (r + s) % orig.length ∧
        cycleDrop (orig.drop r) orig s = orig.drop q := by
  intro s
  induction s with
  | zero => intro r hr; exact ⟨r, hr, rfl, rfl⟩
  | succ s ih =>
    intro r hr
    have hlen : 0 < orig.length := List.length_pos.2 h
    rcases Nat.lt_or_ge r orig.length with hrl | hrl
    · rw [List.drop_eq_getElem_cons hrl]
      have hstep : cycleDrop (orig[r] :: orig.drop (r + 1)) orig (s + 1) =
          cycleDrop (orig.drop (r + 1)) orig s := rfl
      rw [hstep]
      obtain ⟨q, hq1, hq2, hq3⟩ := ih (r + 1) hrl
      refine ⟨q, hq1, ?_, hq3⟩
      rw [hq2]
      congr 1
      omega
    · have hre : r = orig.length := Nat.le_antisymm hr hrl
      subst hre
      cases orig with
      | nil => exact absurd rfl h
      | cons x xs =>
        rw [List.drop_length]
        have hstep : cycleDrop ([] : List α) (x :: xs) (s + 1) =
            cycleDrop xs (x :: xs) s := rfl
        have hd1 : (x :: xs).drop 1 = xs := rfl
        have h1 : (1 : Nat) ≤ (x :: xs).length := Nat.succ_le_succ (Nat.zero_le _)
        obtain ⟨q, hq1, hq2, hq3⟩ := ih 1 h1
        rw [hd1] at hq3
        refine ⟨q, hq1, ?_, by rw [hstep, hq3]⟩
        rw [hq2]
        have hsum : (x :: xs).length + (s + 1) = (1 + s) + 1 * (x :: xs).length := by omega
        rw [hsum, Nat.add_mul_mod_self_right]

/-- Closed form of the whole chain `cycle().skip(s).take(n)` starting from
a fresh cycle of a non-empty `orig`. -/
theorem cycleTake_cycleDrop {α : Type} (orig : List α) (h : orig ≠ []) (d : α)
    (s n : Nat) :
    cycleTake (cycleDrop orig orig s) orig n =
      (List.range n).map (fun i => orig.getD ((s + i) % orig.length) d) := by
  have h0 : (0 : Nat) ≤ orig.length := Nat.zero_le _
  obtain ⟨q, hq1, hq2, hq3⟩ := cycleDrop_mod orig h s 0 h0
  have hdrop0 : orig.drop 0 = orig := rfl
  rw [hdrop0] at hq3
  rw [Nat.zero_add] at hq2
  rw [hq3, cycleTake_drop_eq orig h d n q hq1]
  apply List.map_congr_left
  intro i _
  congr 1
  rw [Nat.add_mod q i, Nat.add_mod s i, hq2]

/-- The address visited by the reversed lane at row `i`,
`len - 1 - ((len - sp - 1 + i) % len)`, is `(sp - i) mod len` computed
with a mathematical (always non-negative) modulus. -/
theorem revAddr_eq_int_emod (len sp i : Nat) (hlen : 0 < len) (hsp : sp < len) :
    ((len - 1 - ((len - sp - 1 + i) % len) : Nat) : Int) =
      ((sp : Int) - (i : Int)) % (len : Int) := by
  set a := (len - sp - 1 + i) % len with hadef
  have ha : a < len := Nat.mod_lt _ hlen
  have haleM : a ≤ len - sp - 1 + i := Nat.mod_le _ _
  have hdvdN : len ∣ (len - sp - 1 + i) - a := Nat.dvd_sub_mod _
  have hdvdI : (len : Int) ∣ ((len - sp - 1 + i : Nat) : Int) - (a : Int) := by
    rw [← Nat.cast_sub haleM]
    exact_mod_cast hdvdN
  obtain ⟨c, hc⟩ := hdvdI
  have hMeq : ((len - sp - 1 + i : Nat) : Int) = (len : Int) - sp - 1 + i := by
    omega
  have key : (sp : Int) - i = ((len : Int) - 1 - a) + (-c) * len := by
    linear_combination hMeq - hc
  rw [key, Int.add_mul_emod_self,
    Int.emod_eq_of_lt (by omega) (by omega)]
  omega

theorem listGetD_eq {α : Type} (l : List α) (j : Nat) (d : α) (h : j < l.length) :
    l.getD j d = l[j] := by
  rw [List.getD_eq_getElem?_getD, List.getElem?_eq_getElem h]
  rfl

/-- The renderer's rows over a non-empty memory, in closed form. -/
theorem display_infos_rows_eq (mem : List Nat) (pc sp : Nat) (nz : Bool)
    (lines : Nat) (hm : mem ≠ []) :
    display_infos_rows ⟨mem, pc, sp, nz⟩ lines =
      ((List.range lines).map
          (fun j => mem.enum.getD ((pc + j) % mem.length) (0, 0))).enum.zip
        ((List.range lines).map
          (fun j => mem.enum.reverse.getD
            ((mem.length - sp - 1 + j) % mem.length) (0, 0))) := by
  have hlen : 0 < mem.length := List.length_pos.2 hm
  have he : mem.enum ≠ [] := by
    rw [← List.length_pos, List.enum_length]
    exact hlen
  have her : mem.enum.reverse ≠ [] := by
    rw [← List.length_pos, List.length_reverse, List.enum_length]
    exact hlen
  show (cycleTake (cycleDrop mem.enum mem.enum pc) mem.enum lines).enum.zip
      (cycleTake
        (cycleDrop mem.enum.reverse mem.enum.reverse (mem.length - sp - 1))
        mem.enum.reverse lines) = _
  rw [cycleTake_cycleDrop mem.enum he (0, 0) pc lines,
    cycleTake_cycleDrop mem.enum.reverse her (0, 0) (mem.length - sp - 1) lines]
  simp [List.enum_length]

/-- Row `i` of the renderer on a non-empty memory: the pc cell is
`(i, (pc + i) % len, memory[(pc + i) % len])` and the sp cell is
`(len - 1 - ((len - sp - 1 + i) % len), memory[same address])`. -/
theorem display_infos_rows_getD (mem : List Nat) (pc sp : Nat) (nz : Bool)
    (lines i : Nat) (hm : mem ≠ []) (hi : i < lines) :
    (display_infos_rows ⟨mem, pc, sp, nz⟩ lines).getD i ((0, 0, 0), (0, 0)) =
      ((i, (pc + i) % mem.length, mem.getD ((pc + i) % mem.length) 0),
       (mem.length - 1 - ((mem.length - sp - 1 + i) % mem.length),
        mem.getD (mem.length - 1 - ((mem.length - sp - 1 + i) % mem.length)) 0)) := by
  have hlen : 0 < mem.length := List.length_pos.2 hm
  have hpcmod : (pc + i) % mem.length < mem.length := Nat.mod_lt _ hlen
  have hspmod : (mem.length - sp - 1 + i) % mem.length < mem.length :=
    Nat.mod_lt _ hlen
  rw [display_infos_rows_eq mem pc sp nz lines hm]
  rw [listGetD_eq _ i _ (by simp [hi])]
  rw [List.getElem_zip]
  congr 1
  · rw [List.getElem_enum]
    congr 1
    rw [List.getElem_map, List.getElem_range,
      listGetD_eq _ _ _ (by simp [hpcmod])]
    rw [List.getElem_enum]
    congr 1
    rw [listGetD_eq _ _ _ hpcmod]
  · rw [List.getElem_map, List.getElem_range,
      listGetD_eq _ _ _ (by simp [hspmod])]
    rw [List.getElem_reverse]
    simp only [List.enum_length]
    rw [List.getElem_enum]
    have hlt : mem.length - 1 - ((mem.length - sp - 1 + i) % mem.length) <
        mem.length := by omega
    congr 1
    exact (listGetD_eq _ _ _ hlt).symm

theorem display_infos_rows_length (mem : List Nat) (pc sp : Nat) (nz : Bool)
    (lines : Nat) (hm : mem ≠ []) :
    (display_infos_rows ⟨mem, pc, sp, nz⟩ lines).length = lines := by
  rw [display_infos_rows_eq mem pc sp nz lines hm]
  simp

/-! ### Unfolding lemmas for the `steps` loop -/

theorem iterStep_succ_right {σ : Type} (f : σ → σ × Statement) (st : σ) :
    ∀ k, iterStep f st (k + 1) = (f (iterStep f st k)).1 := by
  intro k
  induction k generalizing st with
  | zero => rfl
  | succ k ih =>
    rw [iterStep_succ_left, ih, iterStep_succ_left]

theorem stepsLoop_nil {σ : Type} (f : σ → σ × Statement) (st : σ)
    (ex : Nat) (stm : Option Statement) :
    stepsLoop f st [] ex stm = (ex, stm, st) := rfl

theorem stepsLoop_halt_step {σ : Type} (f : σ → σ × Statement) (st : σ)
    (i : Nat) (rest : List Nat) (ex : Nat) (stm : Option Statement)
    (hh : (f st).2.op_code = op_codes.HALT) :
    stepsLoop f st (i :: rest) ex stm = (ex, some (f st).2, (f st).1) := by
  show (if (f st).2.op_code = op_codes.HALT then _ else _) = _
  simp [hh]

theorem stepsLoop_cont {σ : Type} (f : σ → σ × Statement) (st : σ)
    (i : Nat) (rest : List Nat) (ex : Nat) (stm : Option Statement)
    (hh : ¬ (f st).2.op_code = op_codes.HALT) :
    stepsLoop f st (i :: rest) ex stm =
      stepsLoop f (f st).1 rest (i + 1) (some (f st).2) := by
  show (if (f st).2.op_code = op_codes.HALT then _ else _) = _
  simp [hh]

/-- If none of the trace statements at positions `i, …, i + r - 1` is a
halt, the loop runs all `r` remaining iterations and finishes with
`executed = i + r`, the statement of the last call, and `i + r` total
step calls. -/
theorem stepsLoop_no_halt {σ : Type} (f : σ → σ × Statement) (st0 : σ) :
    ∀ r i, (∀ j, i ≤ j → j < i + r → (traceStmt f st0 j).op_code ≠ op_codes.HALT) →
      ∀ stm, stepsLoop f (iterStep f st0 i) (List.range' i r) i stm =
        (i + r, if 0 < r then some (traceStmt f st0 (i + r - 1)) else stm,
          iterStep f st0 (i + r)) := by
  intro r
  induction r with
  | zero =>
    intro i _ stm
    simp [stepsLoop_nil]
  | succ r ih =>
    intro i H stm
    have hnh : (f (iterStep f st0 i)).2.op_code ≠ op_codes.HALT :=
      H i (Nat.le_refl _) (by omega)
    have hr : List.range' i (r + 1) = i :: List.range' (i + 1) r := rfl
    rw [hr, stepsLoop_cont f _ i _ i stm hnh, ← iterStep_succ_right]
    have hH : ∀ j, i + 1 ≤ j → j < i + 1 + r →
        (traceStmt f st0 j).op_code ≠ op_codes.HALT := by
      intro j h1 h2
      exact H j (by omega) (by omega)
    rw [ih (i + 1) hH (some (f (iterStep f st0 i)).2)]
    rcases Nat.eq_zero_or_pos r with h0 | h0
    · subst h0
      have hstm : (f (iterStep f st0 i)).2 = traceStmt f st0 (i + 1 - 1) := rfl
      simp [hstm]
    · have he1 : i + 1 + r = i + (r + 1) := by omega
      have he2 : i + 1 + r - 1 = i + (r + 1) - 1 := by omega
      simp [he1, he2, h0]

/-- If the trace statement at position `h` (with `i ≤ h < i + r`) is the
first halt at or after `i`, the loop breaks there: `executed = h`
(the counter update is skipped for the halting iteration), the halting
statement is returned, and exactly `h + 1` step calls are performed. -/
theorem stepsLoop_halt_first {σ : Type} (f : σ → σ × Statement) (st0 : σ) :
    ∀ r i (h : Nat), i ≤ h → h < i + r →
      (traceStmt f st0 h).op_code = op_codes.HALT →
      (∀ j, i ≤ j → j < h → (traceStmt f st0 j).op_code ≠ op_codes.HALT) →
      ∀ stm, stepsLoop f (iterStep f st0 i) (List.range' i r) i stm =
        (h, some (traceStmt f st0 h), iterStep f st0 (h + 1)) := by
  intro r
  induction r with
  | zero =>
    intro i h h1 h2
    omega
  | succ r ih =>
    intro i h h1 h2 hhalt hpre stm
    have hr : List.range' i (r + 1) = i :: List.range' (i + 1) r := rfl
    rcases Nat.eq_or_lt_of_le h1 with hih | hih
    · have hh : (f (iterStep f st0 i)).2.op_code = op_codes.HALT := by
        rw [hih]
        exact hhalt
      rw [hr, stepsLoop_halt_step f _ i _ i stm hh, ← iterStep_succ_right]
      rw [hih]
      rfl
    · have hnh : (f (iterStep f st0 i)).2.op_code ≠ op_codes.HALT :=
        hpre i (Nat.le_refl _) hih
      rw [hr, stepsLoop_cont f _ i _ i stm hnh, ← iterStep_succ_right]
      exact ih (i + 1) h hih (by omega) hhalt
        (fun j hj1 hj2 => hpre j (by omega) hj2) (some (f (iterStep f st0 i)).2)

/-- From any loop state with at least one iteration remaining, the loop
performs at least one further step call and returns the statement
produced by the last step call it performs. -/
theorem stepsLoop_last {σ : Type} (f : σ → σ × Statement) (st0 : σ) :
    ∀ r i, 0 < r → ∀ stm, ∃ m ex, i + 1 ≤ m ∧ m ≤ i + r ∧
      stepsLoop f (iterStep f st0 i) (List.range' i r) i stm =
        (ex, some (traceStmt f st0 (m - 1)), iterStep f st0 m) := by
  intro r
  induction r with
  | zero =>
    intro i h
    omega
  | succ r ih =>
    intro i _ stm
    have hr : List.range' i (r + 1) = i :: List.range' (i + 1) r := rfl
    by_cases hh : (f (iterStep f st0 i)).2.op_code = op_codes.HALT
    · refine ⟨i + 1, i, Nat.le_refl _, by omega, ?_⟩
      rw [hr, stepsLoop_halt_step f _ i _ i stm hh, ← iterStep_succ_right]
      rfl
    · rw [hr, stepsLoop_cont f _ i _ i stm hh, ← iterStep_succ_right]
      rcases Nat.eq_zero_or_pos r with h0 | h0
      · subst h0
        refine ⟨i + 1, i + 1, Nat.le_refl _, by omega, ?_⟩
        have hnil : List.range' (i + 1) 0 = [] := rfl
        rw [hnil, stepsLoop_nil]
        rfl
      · obtain ⟨m, ex, hm1, hm2, hm3⟩ :=
          ih (i + 1) h0 (some (f (iterStep f st0 i)).2)
        exact ⟨m, ex, by omega, by omega, hm3⟩

/-! ### Frame lemmas for the session fields -/

theorem copy_program_and_reset_program_name {σ : Type} (ops : EngineOps σ)
    (d : Debugger σ) (p : Program) :
    (Debugger.copy_program_and_reset ops d p).2.program_name = d.program_name := by
  cases d with
  | mk di dp ds => cases di <;> rfl

theorem set_interpreter_program_name {σ : Type} (ops : EngineOps σ)
    (d : Debugger σ) (a w : Nat) :
    (Debugger.set_interpreter ops d a w).2.program_name = d.program_name := by
  cases d with
  | mk di dp ds =>
    cases hn : ops.new a w with
    | error e => simp [Debugger.set_interpreter, hn]
    | ok st => simp [Debugger.set_interpreter, hn]

/-! ### Concrete stub engines for witnesses and counterexamples -/

/-- A stub engine over `σ := Nat` whose state counts the step calls made
so far; it never produces the halt op-code. -/
def natOps : EngineOps Nat where
  new := fun _ _ => .ok 0
  copy_program := fun st _ => st
  reset := fun _ => (0, ⟨0, true⟩)
  step := fun st => (st + 1, ⟨0, true⟩)
  debug_infos := fun st => ⟨[st], 0, 0, false⟩

/-- A stub engine like `natOps` whose `k`-th step call (1-indexed, from
state `0`) produces the halt op-code. -/
def haltAtOps (k : Nat) : EngineOps Nat :=
  { natOps with
    step := fun st => (st + 1, ⟨if st + 1 = k then op_codes.HALT else 0, true⟩) }

/-! ### The claims -/

/-- Claim C2: for every height > 0 and every non-empty memory with pc and
sp in bounds, the renderer produces exactly `height` paired rows; row `i`
of the pc lane has address `(pc + i) mod memory.length` with relative
offset `i`, and row `i` of the sp lane has address
`(sp - i) mod memory.length` (mathematical modulus, non-negative). -/
theorem display_infos_rows_claim (mem : List Nat) (pc sp : Nat) (nz : Bool)
    (lines : Nat) (hm : mem ≠ []) (hpc : pc < mem.length)
    (hsp : sp < mem.length) (hl : 0 < lines) :
    (display_infos_rows ⟨mem, pc, sp, nz⟩ lines).length = lines ∧
    ∀ i, i < lines →
      ((display_infos_rows ⟨mem, pc, sp, nz⟩ lines).getD i ((0, 0, 0), (0, 0))).1.1 = i ∧
      ((display_infos_rows ⟨mem, pc, sp, nz⟩ lines).getD i ((0, 0, 0), (0, 0))).1.2.1 =
        (pc + i) % mem.length ∧
      ((((display_infos_rows ⟨mem, pc, sp, nz⟩ lines).getD i ((0, 0, 0), (0, 0))).2.1 : Nat) : Int) =
        ((sp : Int) - (i : Int)) % ((mem.length : Nat) : Int) := by
  constructor
  · exact display_infos_rows_length mem pc sp nz lines hm
  · intro i hi
    rw [display_infos_rows_getD mem pc sp nz lines i hm hi]
    exact ⟨rfl, rfl,
      revAddr_eq_int_emod mem.length sp i (List.length_pos.2 hm) hsp⟩

theorem display_infos_rows_claim_witness :
    (display_infos_rows ⟨[5, 6, 7], 2, 0, false⟩ 4).length = 4 ∧
    ((display_infos_rows ⟨[5, 6, 7], 2, 0, false⟩ 4).getD 2 ((0, 0, 0), (0, 0))).1.1 = 2 ∧
    ((display_infos_rows ⟨[5, 6, 7], 2, 0, false⟩ 4).getD 2 ((0, 0, 0), (0, 0))).1.2.1 =
      (2 + 2) % 3 ∧
    ((((display_infos_rows ⟨[5, 6, 7], 2, 0, false⟩ 4).getD 2 ((0, 0, 0), (0, 0))).2.1 : Nat) : Int) =
      ((0 : Int) - (2 : Int)) % (3 : Int) := by
  have h := display_infos_rows_claim [5, 6, 7] 2 0 false 4 (by decide)
    (by decide) (by decide) (by decide)
  have h2 := h.2 2 (by decide)
  exact ⟨h.1, h2.1, h2.2.1, h2.2.2⟩

/-- Claim C5: rendering with empty memory returns the empty row sequence
for every pc, sp and height (no modulus by zero is ever taken: every skip
and take over the empty cycle is empty by construction). -/
theorem display_infos_rows_empty_claim (pc sp : Nat) (nz : Bool) (lines : Nat) :
    display_infos_rows ⟨[], pc, sp, nz⟩ lines = [] := by
  show (cycleTake (cycleDrop ([] : List (Nat × Nat)) [] pc) [] lines).enum.zip
      (cycleTake (cycleDrop ([] : List (Nat × Nat)) []
        (([] : List Nat).length - sp - 1)) [] lines) = []
  rw [cycleDrop_nil, cycleTake_nil, cycleDrop_nil, cycleTake_nil]
  rfl

/-- Claim C6: with a live machine, `steps` with `requested = 0` executes
no instruction and returns `executed = 0`, `last_statement = none`, the
machine's pre-call snapshot, and leaves the debugger unchanged. -/
theorem steps_zero_claim {σ : Type} (ops : EngineOps σ) (d : Debugger σ)
    (st : σ) (hd : d.interpreter = some st) :
    Debugger.steps ops d 0 = (Except.ok (0, ops.debug_infos st, none), d) := by
  cases d with
  | mk di dp ds =>
    have hd' : di = some st := hd
    subst hd'
    rfl

theorem steps_zero_claim_witness :
    Debugger.steps natOps (⟨some 5, some "p", none⟩ : Debugger Nat) 0 =
      (Except.ok (0, DebugInfos.mk [5] 0 0 false, none),
       (⟨some 5, some "p", none⟩ : Debugger Nat)) :=
  steps_zero_claim natOps ⟨some 5, some "p", none⟩ 5 rfl

/-- Claim C7: with a live machine, if none of the first `n` trace
statements carries the halt op-code, `steps` returns `executed = n`
(together with the snapshot after `n` step calls and the statement of the
last call). -/
theorem steps_no_halt_claim {σ : Type} (ops : EngineOps σ) (d : Debugger σ)
    (st : σ) (n : Nat) (hd : d.interpreter = some st)
    (H : ∀ j, j < n → (traceStmt ops.step st j).op_code ≠ op_codes.HALT) :
    (Debugger.steps ops d n).1 =
      Except.ok (n, ops.debug_infos (iterStep ops.step st n),
        if 0 < n then some (traceStmt ops.step st (n - 1)) else none) := by
  have hmain := stepsLoop_no_halt ops.step st n 0
    (fun j _ hj => H j (by omega)) none
  simp only [Nat.zero_add] at hmain
  simp only [iterStep] at hmain
  simp only [Debugger.steps, hd]
  rw [List.range_eq_range', hmain]

theorem steps_no_halt_claim_witness :
    (Debugger.steps natOps (⟨some 0, some "p", none⟩ : Debugger Nat) 3).1 =
      Except.ok (3, natOps.debug_infos (iterStep natOps.step 0 3),
        if 0 < 3 then some (traceStmt natOps.step 0 2) else none) :=
  steps_no_halt_claim natOps ⟨some 0, some "p", none⟩ 0 3 rfl (by decide)

/-- Claim C1 counterexample: with an engine whose very first instruction
produces the halt op-code (so `k = 1`, `N = 1`), `steps` returns
`executed = 0`, not `executed = k = 1`: the `executed = i + 1` update in
the loop is skipped when the halt `break` fires. -/
theorem steps_halt_executed_cex :
    (Debugger.steps (haltAtOps 1) (⟨some 0, none, none⟩ : Debugger Nat) 1).1.map
        (fun r => r.1) = Except.ok 0 ∧
    (Except.ok 0 : Except DebuggerError Nat) ≠ Except.ok 1 := by
  constructor
  · rfl
  · intro hcon
    exact absurd (Except.ok.inj hcon) (by decide)

/-- Claim C1 (amended): with a live machine, if the `k`-th of `n ≥ k ≥ 1`
requested instructions is the first whose statement carries the halt
op-code, `steps` returns `executed = k - 1` (the halting instruction is
performed but not counted), the snapshot after `k` step calls, and the
halting statement. -/
theorem steps_halt_executed_amended {σ : Type} (ops : EngineOps σ)
    (d : Debugger σ) (st : σ) (n k : Nat) (hd : d.interpreter = some st)
    (hk1 : 1 ≤ k) (hk2 : k ≤ n)
    (hhalt : (traceStmt ops.step st (k - 1)).op_code = op_codes.HALT)
    (hpre : ∀ j, j < k - 1 → (traceStmt ops.step st j).op_code ≠ op_codes.HALT) :
    (Debugger.steps ops d n).1 =
      Except.ok (k - 1, ops.debug_infos (iterStep ops.step st k),
        some (traceStmt ops.step st (k - 1))) := by
  have hmain := stepsLoop_halt_first ops.step st n 0 (k - 1) (Nat.zero_le _)
    (by omega) hhalt (fun j _ hj => hpre j hj) none
  have hk' : k - 1 + 1 = k := by omega
  rw [hk'] at hmain
  simp only [iterStep] at hmain
  simp only [Debugger.steps, hd]
  rw [List.range_eq_range', hmain]

theorem steps_halt_executed_amended_witness :
    (Debugger.steps (haltAtOps 2) (⟨some 0, none, none⟩ : Debugger Nat) 5).1 =
      Except.ok (2 - 1, (haltAtOps 2).debug_infos (iterStep (haltAtOps 2).step 0 2),
        some (traceStmt (haltAtOps 2).step 0 (2 - 1))) :=
  steps_halt_executed_amended (haltAtOps 2) ⟨some 0, none, none⟩ 0 5 2 rfl
    (by decide) (by decide) (by decide) (by decide)

/-- Claim C8: once a step's statement carries the halt op-code, no
further engine step call is performed in that `steps` call: with the
first halt at trace position `k - 1` (`1 ≤ k ≤ n`), the final engine
state is exactly `k` applications of `step` — the `(k+1)`-th through
`n`-th calls never happen.  In this embedding every engine call is one
application of `ops.step` threaded through the state, so the final state
being `iterStep ops.step st k` counts the calls exactly. -/
theorem steps_halt_no_further_calls {σ : Type} (ops : EngineOps σ)
    (d : Debugger σ) (st : σ) (n k : Nat) (hd : d.interpreter = some st)
    (hk1 : 1 ≤ k) (hk2 : k ≤ n)
    (hhalt : (traceStmt ops.step st (k - 1)).op_code = op_codes.HALT)
    (hpre : ∀ j, j < k - 1 → (traceStmt ops.step st j).op_code ≠ op_codes.HALT) :
    (Debugger.steps ops d n).2 =
      { d with interpreter := some (iterStep ops.step st k) } := by
  have hmain := stepsLoop_halt_first ops.step st n 0 (k - 1) (Nat.zero_le _)
    (by omega) hhalt (fun j _ hj => hpre j hj) none
  have hk' : k - 1 + 1 = k := by omega
  rw [hk'] at hmain
  simp only [iterStep] at hmain
  simp only [Debugger.steps, hd]
  rw [List.range_eq_range', hmain]

theorem steps_halt_no_further_calls_witness :
    (Debugger.steps (haltAtOps 2) (⟨some 0, none, none⟩ : Debugger Nat) 5).2 =
      { (⟨some 0, none, none⟩ : Debugger Nat) with
        interpreter := some (iterStep (haltAtOps 2).step 0 2) } :=
  steps_halt_no_further_calls (haltAtOps 2) ⟨some 0, none, none⟩ 0 5 2 rfl
    (by decide) (by decide) (by decide) (by decide)

/-- Claim C10: with a live machine and `n ≥ 1` requested steps, `steps`
returns `last_statement = some s` where `s` is the statement produced by
the final engine step call performed in the run (`m` calls, `1 ≤ m ≤ n`;
in particular, when the run stops early on halt, `s` is the halting
instruction's statement). -/
theorem steps_last_statement_claim {σ : Type} (ops : EngineOps σ)
    (d : Debugger σ) (st : σ) (n : Nat) (hd : d.interpreter = some st)
    (hn : 1 ≤ n) :
    ∃ m ex, 1 ≤ m ∧ m ≤ n ∧
      Debugger.steps ops d n =
        (Except.ok (ex, ops.debug_infos (iterStep ops.step st m),
          some (traceStmt ops.step st (m - 1))),
         { d with interpreter := some (iterStep ops.step st m) }) := by
  obtain ⟨m, ex, hm1, hm2, hmain⟩ :=
    stepsLoop_last ops.step st n 0 (by omega) none
  simp only [iterStep] at hmain
  refine ⟨m, ex, by omega, by omega, ?_⟩
  simp only [Debugger.steps, hd]
  rw [List.range_eq_range', hmain]

theorem steps_last_statement_claim_witness :
    ∃ m ex, 1 ≤ m ∧ m ≤ 2 ∧
      Debugger.steps natOps (⟨some 0, none, none⟩ : Debugger Nat) 2 =
        (Except.ok (ex, natOps.debug_infos (iterStep natOps.step 0 m),
          some (traceStmt natOps.step 0 (m - 1))),
         { (⟨some 0, none, none⟩ : Debugger Nat) with
           interpreter := some (iterStep natOps.step 0 m) }) :=
  steps_last_statement_claim natOps ⟨some 0, none, none⟩ 0 2 rfl (by decide)

/-- Claim C3 counterexample: destroying the machine on a session holding
a last statement and a loaded-program name succeeds but leaves both the
statement and the program name intact — `unset_interpreter` only sets the
interpreter slot to `None`. -/
theorem unset_clears_session_cex :
    (Debugger.unset_interpreter
      (⟨some 0, some "prog.rm", some ⟨3, true⟩⟩ : Debugger Nat)).1 = Except.ok () ∧
    (Debugger.unset_interpreter
      (⟨some 0, some "prog.rm", some ⟨3, true⟩⟩ : Debugger Nat)).2.statement ≠ none ∧
    (Debugger.unset_interpreter
      (⟨some 0, some "prog.rm", some ⟨3, true⟩⟩ : Debugger Nat)).2.program_name ≠ none := by
  refine ⟨rfl, ?_, ?_⟩ <;> decide

/-- Claim C3 (amended): when a machine exists, `destroy_machine`
(`unset_interpreter`) succeeds and clears the machine handle, but the
last statement and the loaded-program name are left unchanged. -/
theorem unset_clears_handle_only {σ : Type} (d : Debugger σ) (st : σ)
    (hd : d.interpreter = some st) :
    (Debugger.unset_interpreter d).1 = Except.ok () ∧
    (Debugger.unset_interpreter d).2.interpreter = none ∧
    (Debugger.unset_interpreter d).2.program_name = d.program_name ∧
    (Debugger.unset_interpreter d).2.statement = d.statement := by
  cases d with
  | mk di dp ds =>
    have hd' : di = some st := hd
    subst hd'
    exact ⟨rfl, rfl, rfl, rfl⟩

theorem unset_clears_handle_only_witness :
    (Debugger.unset_interpreter
      (⟨some 4, some "p", some ⟨1, true⟩⟩ : Debugger Nat)).1 = Except.ok () ∧
    (Debugger.unset_interpreter
      (⟨some 4, some "p", some ⟨1, true⟩⟩ : Debugger Nat)).2.interpreter = none ∧
    (Debugger.unset_interpreter
      (⟨some 4, some "p", some ⟨1, true⟩⟩ : Debugger Nat)).2.program_name =
      (⟨some 4, some "p", some ⟨1, true⟩⟩ : Debugger Nat).program_name ∧
    (Debugger.unset_interpreter
      (⟨some 4, some "p", some ⟨1, true⟩⟩ : Debugger Nat)).2.statement =
      (⟨some 4, some "p", some ⟨1, true⟩⟩ : Debugger Nat).statement :=
  unset_clears_handle_only ⟨some 4, some "p", some ⟨1, true⟩⟩ 4 rfl

/-- Claim C9: from the no-machine state every operation other than
machine creation — destroy, the engine accessor, copy-and-reset, reset,
`steps` for any count, and the debug-info query — fails with
`NoInterpreter` and leaves the session state unchanged. -/
theorem no_machine_ops_fail {σ : Type} (ops : EngineOps σ) (d : Debugger σ)
    (hd : d.interpreter = none) :
    Debugger.unset_interpreter d = (Except.error .NoInterpreter, d) ∧
    Debugger.interpreter_val d = Except.error .NoInterpreter ∧
    (∀ p : Program,
      Debugger.copy_program_and_reset ops d p = (Except.error .NoInterpreter, d)) ∧
    Debugger.reset ops d = (Except.error .NoInterpreter, d) ∧
    (∀ n : Nat, Debugger.steps ops d n = (Except.error .NoInterpreter, d)) ∧
    Debugger.debug_infos_val ops d = Except.error .NoInterpreter := by
  cases d with
  | mk di dp ds =>
    have hd' : di = none := hd
    subst hd'
    exact ⟨rfl, rfl, fun p => rfl, rfl, fun n => rfl, rfl⟩

theorem no_machine_ops_fail_witness :
    Debugger.unset_interpreter (⟨none, some "p", some ⟨7, false⟩⟩ : Debugger Nat) =
      (Except.error .NoInterpreter, ⟨none, some "p", some ⟨7, false⟩⟩) ∧
    Debugger.interpreter_val (⟨none, some "p", some ⟨7, false⟩⟩ : Debugger Nat) =
      Except.error .NoInterpreter ∧
    Debugger.copy_program_and_reset natOps ⟨none, some "p", some ⟨7, false⟩⟩ ⟨[1]⟩ =
      (Except.error .NoInterpreter, ⟨none, some "p", some ⟨7, false⟩⟩) ∧
    Debugger.reset natOps ⟨none, some "p", some ⟨7, false⟩⟩ =
      (Except.error .NoInterpreter, ⟨none, some "p", some ⟨7, false⟩⟩) ∧
    Debugger.steps natOps ⟨none, some "p", some ⟨7, false⟩⟩ 3 =
      (Except.error .NoInterpreter, ⟨none, some "p", some ⟨7, false⟩⟩) ∧
    Debugger.debug_infos_val natOps ⟨none, some "p", some ⟨7, false⟩⟩ =
      Except.error .NoInterpreter := by
  have h := no_machine_ops_fail natOps
    (⟨none, some "p", some ⟨7, false⟩⟩ : Debugger Nat) rfl
  exact ⟨h.1, h.2.1, h.2.2.1 ⟨[1]⟩, h.2.2.2.1, h.2.2.2.2.1 3, h.2.2.2.2.2⟩

/-- Claim C4 counterexample: a load whose file read fails still records
the new filename as the session's program name — the `Copy` arm assigns
`self.program_name = Some(filename)` before attempting the read, so the
name is not left unchanged on failure. -/
theorem executeCopy_program_name_cex :
    Debugger.executeCopy natOps (⟨none, some "old.rm", none⟩ : Debugger Nat)
        "ghost.rm" (Except.error "No such file") =
      some ⟨none, some "ghost.rm", none⟩ ∧
    (some "ghost.rm" : Option String) ≠ some "old.rm" := by
  exact ⟨rfl, by decide⟩

/-- Claim C4 (amended): after a load-program operation that does not
panic, the session's program name equals the given filename
unconditionally — it is assigned before the image is read, so it records
the last load attempt whether or not the load succeeded. -/
theorem executeCopy_program_name_amended {σ : Type} (ops : EngineOps σ)
    (d : Debugger σ) (filename : String) (fileResult : Except String Program)
    (d' : Debugger σ)
    (h : Debugger.executeCopy ops d filename fileResult = some d') :
    d'.program_name = some filename := by
  unfold Debugger.executeCopy at h
  cases fileResult with
  | error e =>
    simp only [Option.some.injEq] at h
    rw [← h]
  | ok program =>
    simp only at h
    split at h
    · next u d2 heq =>
      simp only [Option.some.injEq] at h
      rw [← h]
      have h2 := copy_program_and_reset_program_name ops
        { d with program_name := some filename } program
      rw [heq] at h2
      exact h2
    · next e1 d2 heq =>
      split at h
      · next u d4 heq2 =>
        simp only [Option.some.injEq] at h
        rw [← h]
        have h3 := copy_program_and_reset_program_name ops
          { d with program_name := some filename } program
        rw [heq] at h3
        have h2 := copy_program_and_reset_program_name ops
          (Debugger.set_interpreter ops d2 program.memory.length
            DEFAULT_ARCH_WIDTH).2 program
        rw [heq2, set_interpreter_program_name] at h2
        show d4.program_name = some filename
        rw [h2]
        exact h3
      · next e2 d4 heq2 =>
        exact Option.noConfusion h

theorem executeCopy_program_name_amended_witness :
    Debugger.executeCopy natOps (⟨none, some "old.rm", none⟩ : Debugger Nat)
        "hello.rm" (Except.ok ⟨[1, 2]⟩) =
      some ⟨some 0, some "hello.rm", none⟩ ∧
    (⟨some 0, some "hello.rm", none⟩ : Debugger Nat).program_name =
      some "hello.rm" :=
  ⟨rfl, executeCopy_program_name_amended natOps ⟨none, some "old.rm", none⟩
    "hello.rm" (Except.ok ⟨[1, 2]⟩) ⟨some 0, some "hello.rm", none⟩ rfl⟩

end Reustmann
